import Mathlib

/-!
Verification of the release/version-propagation script `scripts/utils.js`.

Shallow embedding conventions:
* JavaScript strings that participate in the algorithms (JSON keys and
  values, import specifiers, URLs, version strings) are modelled as
  `Str := List Char`; `str` injects Lean string literals.  File-system
  paths and log lines, about which no character-level reasoning is
  needed, stay `String`.
* A JSON dependency object is modelled as a total function
  `Str → Option Str` (`none` = key absent).  JavaScript truthiness of a
  string value is `truthy`: present and non-empty.
* Fallible operations return an explicit `Bool` flag (`true` = the
  promise resolved, `false` = it rejected) next to the resulting world
  state; `try/catch` is translated by discarding the flag.
-/

abbrev Str := List Char

/-- Character list of a string literal. -/
def str (s : String) : Str := s.data

/-- JavaScript truthiness of an (optional) string value: the key is
present and its value is a non-empty string. -/
def truthy : Option Str → Bool
  | none => false
  | some s => !s.isEmpty

/-- `s.startsWith(pre)` on the character-list model. -/
def strStartsWith (s pre : Str) : Bool := pre.isPrefixOf s

/-- The static package registry of `scripts/utils.js` (`remixPackages`). -/
structure RemixPackages where
  adapters : List String
  runtimes : List String
  core : List String

def remixPackages : RemixPackages :=
  { adapters := ["architect", "cloudflare-pages", "cloudflare-workers", "express"]
    runtimes := ["cloudflare", "deno", "node"]
    core := ["dev", "server-runtime", "react", "eslint-config", "css-bundle", "testing"] }

/-- The `all` getter: adapters, runtimes and core in order, then `"serve"`. -/
def RemixPackages.all (r : RemixPackages) : List String :=
  r.adapters ++ r.runtimes ++ r.core ++ ["serve"]

/-- Distribution (scoped) name of an internal package: `@remix-run/<p>`. -/
def distName (p : String) : Str := ("@remix-run/" ++ p).data

/-- A package manifest (`package.json`), restricted to the fields the
script reads or writes.  Each dependency class is an optional mapping
from distribution names to version-constraint strings. -/
structure Manifest where
  version : Option Str
  dependencies : Option (Str → Option Str)
  devDependencies : Option (Str → Option Str)
  peerDependencies : Option (Str → Option Str)

/-- One `dependencies`/`devDependencies` rewrite of `updateRemixVersion`:
`if (config.dependencies?.[key]) config.dependencies[key] = remixVersion`.
The guard is JavaScript truthiness of the current value. -/
def updDepF (f : Str → Option Str) (key v : Str) : Str → Option Str :=
  if truthy (f key) then (fun k => if k = key then some v else f k) else f

/-- `config.peerDependencies[key]?.startsWith("^")`: whether the current
value begins with a caret (`false` when the key is absent). -/
def caretOf : Option Str → Bool
  | some s => strStartsWith s (str "^")
  | none => false

/-- One `peerDependencies` rewrite of `updateRemixVersion`: inside the
truthiness guard, a leading caret of the old value is preserved. -/
def updPeerF (f : Str → Option Str) (key v : Str) : Str → Option Str :=
  if truthy (f key) then
    (fun k => if k = key then some ((if caretOf (f key) then str "^" else []) ++ v) else f k)
  else f

/-- Body of the `for (let pkg of remixPackages.all)` loop for one
package: rewrite all three dependency classes at key `@remix-run/pkg`.
An absent dependency class (`config.dependencies?.`) is left absent. -/
def updateStep (v : Str) (m : Manifest) (p : String) : Manifest :=
  { m with
    dependencies := m.dependencies.map (fun f => updDepF f (distName p) v)
    devDependencies := m.devDependencies.map (fun f => updDepF f (distName p) v)
    peerDependencies := m.peerDependencies.map (fun f => updPeerF f (distName p) v) }

/-- The transform closure passed by `updateRemixVersion` to
`updatePackageConfig` (the core of the spec's `updateManifest`):
set `config.version = remixVersion`, then run the loop over
`remixPackages.all`. -/
def updateManifestTransform (m : Manifest) (v : Str) : Manifest :=
  remixPackages.all.foldl (updateStep v) { m with version := some v }

/-- An update at a different key leaves the map pointwise unchanged. -/
lemma updDepF_apply_ne {f : Str → Option Str} {key v x : Str} (hx : x ≠ key) :
    updDepF f key v x = f x := by
  unfold updDepF
  split
  · simp [hx]
  · rfl

/-- A peer update at a different key leaves the map pointwise unchanged. -/
lemma updPeerF_apply_ne {f : Str → Option Str} {key v x : Str} (hx : x ≠ key) :
    updPeerF f key v x = f x := by
  unfold updPeerF
  split
  · simp [hx]
  · rfl

/-- Pointwise behaviour of the `dependencies`/`devDependencies` loop:
a key is rewritten to `v` exactly when it is one of the scanned
distribution names and its current value is truthy. -/
lemma depsFold_apply (v : Str) :
    ∀ (l : List String) (f : Str → Option Str) (x : Str),
      l.foldl (fun f p => updDepF f (distName p) v) f x
        = if x ∈ l.map distName ∧ truthy (f x) = true then some v else f x := by
  intro l
  induction l with
  | nil => intro f x; simp
  | cons p l ih =>
    intro f x
    rw [List.foldl_cons, ih]
    by_cases hx : x = distName p
    · by_cases ht : truthy (f x) = true
      · have hg : truthy (f (distName p)) = true := hx ▸ ht
        have hupd : updDepF f (distName p) v x = some v := by
          rw [hx]; simp [updDepF, hg]
        rw [hupd, ite_self]
        have hc : x ∈ List.map distName (p :: l) ∧ truthy (f x) = true :=
          ⟨by simp [hx], ht⟩
        rw [if_pos hc]
      · have hg : ¬truthy (f (distName p)) = true := by rw [← hx]; exact ht
        have hupd : updDepF f (distName p) v = f := by
          simp [updDepF, hg]
        rw [hupd, if_neg (fun hc => ht hc.2), if_neg (fun hc => ht hc.2)]
    · rw [updDepF_apply_ne hx]
      have hmc : x ∈ List.map distName (p :: l) ↔ x ∈ List.map distName l := by
        simp [List.map_cons, List.mem_cons, hx]
      by_cases hc : x ∈ List.map distName l ∧ truthy (f x) = true
      · rw [if_pos hc, if_pos ⟨hmc.mpr hc.1, hc.2⟩]
      · rw [if_neg hc, if_neg (fun hc2 => hc ⟨hmc.mp hc2.1, hc2.2⟩)]

/-- Pointwise behaviour of the `peerDependencies` loop, for a list of
pairwise distinct keys. -/
lemma peerFold_apply (v : Str) :
    ∀ (l : List String), (l.map distName).Nodup →
      ∀ (f : Str → Option Str) (x : Str),
        l.foldl (fun f p => updPeerF f (distName p) v) f x
          = if x ∈ l.map distName ∧ truthy (f x) = true
            then some ((if caretOf (f x) then str "^" else []) ++ v) else f x := by
  intro l
  induction l with
  | nil => intro _ f x; simp
  | cons p l ih =>
    intro hnd f x
    rw [List.map_cons, List.nodup_cons] at hnd
    rw [List.foldl_cons, ih hnd.2]
    by_cases hx : x = distName p
    · have hmem : x ∉ l.map distName := hx ▸ hnd.1
      by_cases ht : truthy (f x) = true
      · have hg : truthy (f (distName p)) = true := hx ▸ ht
        have hupd : updPeerF f (distName p) v x
            = some ((if caretOf (f x) then str "^" else []) ++ v) := by
          rw [hx]; simp [updPeerF, hg]
        rw [hupd,
          if_neg (fun hc => hmem (hc : _ ∧ _).1),
          if_pos (⟨by simp [hx], ht⟩ :
            x ∈ List.map distName (p :: l) ∧ truthy (f x) = true)]
      · have hg : ¬truthy (f (distName p)) = true := by rw [← hx]; exact ht
        have hupd : updPeerF f (distName p) v = f := by
          simp [updPeerF, hg]
        rw [hupd, if_neg (fun hc => ht hc.2), if_neg (fun hc => ht hc.2)]
    · rw [updPeerF_apply_ne hx]
      have hmc : x ∈ List.map distName (p :: l) ↔ x ∈ List.map distName l := by
        simp [List.map_cons, List.mem_cons, hx]
      by_cases hc : x ∈ List.map distName l ∧ truthy (f x) = true
      · rw [if_pos hc,
          if_pos ((⟨hmc.mpr hc.1, hc.2⟩ :
            x ∈ List.map distName (p :: l) ∧ truthy (f x) = true))]
      · rw [if_neg hc,
          if_neg (fun hc2 : x ∈ List.map distName (p :: l) ∧ truthy (f x) = true =>
            hc ⟨hmc.mp hc2.1, hc2.2⟩)]

/-- The `updateStep` fold acts independently on the three dependency
classes and never touches `version`. -/
lemma foldl_updateStep_fields (v : Str) :
    ∀ (l : List String) (m : Manifest),
      l.foldl (updateStep v) m =
        { version := m.version
          dependencies :=
            m.dependencies.map (fun f => l.foldl (fun f p => updDepF f (distName p) v) f)
          devDependencies :=
            m.devDependencies.map (fun f => l.foldl (fun f p => updDepF f (distName p) v) f)
          peerDependencies :=
            m.peerDependencies.map (fun f => l.foldl (fun f p => updPeerF f (distName p) v) f) } := by
  intro l
  induction l with
  | nil =>
    intro m
    cases m
    simp
  | cons p l ih =>
    intro m
    rw [List.foldl_cons, ih]
    cases m
    simp only [updateStep, List.foldl_cons]
    congr 1 <;> (rw [Option.map_map]; rfl)

lemma optionMap_congr {α β : Type} {f g : α → β} (h : ∀ a, f a = g a) :
    ∀ o : Option α, o.map f = o.map g := by
  intro o
  cases o with
  | none => rfl
  | some a => simp [h]

/-- Closed form of `updateManifestTransform`: `version` is set
unconditionally and the three dependency classes evolve independently. -/
lemma updateManifestTransform_fields (m : Manifest) (v : Str) :
    updateManifestTransform m v =
      { version := some v
        dependencies :=
          m.dependencies.map
            (fun f => remixPackages.all.foldl (fun f p => updDepF f (distName p) v) f)
        devDependencies :=
          m.devDependencies.map
            (fun f => remixPackages.all.foldl (fun f p => updDepF f (distName p) v) f)
        peerDependencies :=
          m.peerDependencies.map
            (fun f => remixPackages.all.foldl (fun f p => updPeerF f (distName p) v) f) } := by
  unfold updateManifestTransform
  rw [foldl_updateStep_fields]

/-- The `dependencies` loop is idempotent pointwise (for every target
version, even a degenerate one). -/
lemma depsFold_idem (v : Str) (l : List String) (f : Str → Option Str) (x : Str) :
    l.foldl (fun f p => updDepF f (distName p) v)
        (l.foldl (fun f p => updDepF f (distName p) v) f) x
      = l.foldl (fun f p => updDepF f (distName p) v) f x := by
  rw [depsFold_apply, depsFold_apply]
  by_cases hc : x ∈ l.map distName ∧ truthy (f x) = true
  · rw [if_pos hc, ite_self]
  · rw [if_neg hc, if_neg hc]

/-- The `peerDependencies` loop is idempotent pointwise, provided the
target version does not itself begin with a caret. -/
lemma peerFold_idem (v : Str) (hv : strStartsWith v (str "^") = false)
    (l : List String) (hnd : (l.map distName).Nodup) (f : Str → Option Str) (x : Str) :
    l.foldl (fun f p => updPeerF f (distName p) v)
        (l.foldl (fun f p => updPeerF f (distName p) v) f) x
      = l.foldl (fun f p => updPeerF f (distName p) v) f x := by
  rw [peerFold_apply v l hnd, peerFold_apply v l hnd]
  by_cases hc : x ∈ l.map distName ∧ truthy (f x) = true
  · rw [if_pos hc]
    cases hb : caretOf (f x) with
    | false =>
      simp only [hb, if_neg Bool.false_ne_true, List.nil_append]
      have htv : truthy (some v) = !v.isEmpty := rfl
      by_cases hv0 : v = []
      · subst hv0
        rw [if_neg (fun hc2 => by simpa [truthy] using hc2.2)]
      · have : caretOf (some v) = false := hv
        rw [if_pos ⟨hc.1, by simpa [truthy, List.isEmpty_iff] using hv0⟩, this,
          if_neg Bool.false_ne_true, List.nil_append]
    | true =>
      have e : (if (true = true) then str "^" else ([] : Str)) = str "^" := rfl
      rw [e]
      have h1 : truthy (some (str "^" ++ v)) = true := rfl
      have h2 : caretOf (some (str "^" ++ v)) = true := by
        simp [caretOf, strStartsWith, str, List.isPrefixOf]
      rw [h2, e, if_pos ⟨hc.1, h1⟩]
  · rw [if_neg hc, if_neg hc]

/-- Claim C1 (amended): for every internal package `p` and target
version `v`, a `dependencies` or `devDependencies` entry for
`@remix-run/p` whose current value is a non-empty string is rewritten to
`v` verbatim (the caret or any other range prefix is discarded).  The
non-emptiness proviso is forced by the code's JavaScript truthiness
guard, exhibited by `updateRemixVersion_dep_empty_value_not_rewritten`. -/
theorem updateRemixVersion_sets_dep_entries_verbatim :
    ∀ (p : String), p ∈ remixPackages.all →
    ∀ (v : Str) (m : Manifest) (f : Str → Option Str) (w : Str), w ≠ [] →
      (m.dependencies = some f → f (distName p) = some w →
        ∃ g, (updateManifestTransform m v).dependencies = some g ∧
          g (distName p) = some v) ∧
      (m.devDependencies = some f → f (distName p) = some w →
        ∃ g, (updateManifestTransform m v).devDependencies = some g ∧
          g (distName p) = some v) := by
  intro p hp v m f w hw
  have hmem : distName p ∈ remixPackages.all.map distName :=
    List.mem_map_of_mem distName hp
  have htr : ∀ h : f (distName p) = some w, truthy (f (distName p)) = true := by
    intro h
    rw [h]
    cases w with
    | nil => exact absurd rfl hw
    | cons c t => rfl
  constructor
  · intro hd hf
    rw [updateManifestTransform_fields, hd]
    refine ⟨_, rfl, ?_⟩
    show List.foldl (fun f p => updDepF f (distName p) v) f remixPackages.all (distName p)
      = some v
    rw [depsFold_apply, if_pos ⟨hmem, htr hf⟩]
  · intro hd hf
    rw [updateManifestTransform_fields, hd]
    refine ⟨_, rfl, ?_⟩
    show List.foldl (fun f p => updDepF f (distName p) v) f remixPackages.all (distName p)
      = some v
    rw [depsFold_apply, if_pos ⟨hmem, htr hf⟩]

/-- Claim C1, counterexample to the unamended statement: a
`dependencies` entry for `@remix-run/react` whose value is the empty
string (falsy in JavaScript) is present in the manifest but is left
unchanged by the transform instead of being set to `"2.0.0"`. -/
theorem updateRemixVersion_dep_empty_value_not_rewritten :
    ((⟨none, some (fun k => if k = distName "react" then some [] else none),
        none, none⟩ : Manifest).dependencies.map
      (fun g => g (distName "react"))) = some (some []) ∧
    ((updateManifestTransform
        ⟨none, some (fun k => if k = distName "react" then some [] else none),
          none, none⟩ (str "2.0.0")).dependencies.map
      (fun g => g (distName "react"))) = some (some []) ∧
    some (some ([] : Str)) ≠ some (some (str "2.0.0")) := by
  refine ⟨rfl, by decide, by decide⟩

/-- Concrete instantiation of `updateRemixVersion_sets_dep_entries_verbatim`. -/
theorem updateRemixVersion_sets_dep_entries_verbatim_witness :
    ∃ g, (updateManifestTransform
        ⟨none, some (fun k => if k = distName "react" then some (str "1.0.0") else none),
          none, none⟩ (str "2.0.0")).dependencies = some g ∧
      g (distName "react") = some (str "2.0.0") :=
  (updateRemixVersion_sets_dep_entries_verbatim "react" (by decide) (str "2.0.0")
      ⟨none, some (fun k => if k = distName "react" then some (str "1.0.0") else none),
        none, none⟩
      (fun k => if k = distName "react" then some (str "1.0.0") else none)
      (str "1.0.0") (by decide)).1 rfl (by decide)

/-- Claim C2 (amended): a `peerDependencies` entry for `@remix-run/p`
whose current value is a non-empty string is rewritten to `^v` exactly
when the old value began with a caret, and to `v` verbatim otherwise.
The non-emptiness proviso is forced by the code's truthiness guard,
exhibited by `updateRemixVersion_peer_empty_value_not_rewritten`. -/
theorem updateRemixVersion_peer_preserves_caret :
    ∀ (p : String), p ∈ remixPackages.all →
    ∀ (v : Str) (m : Manifest) (f : Str → Option Str) (w : Str), w ≠ [] →
      m.peerDependencies = some f → f (distName p) = some w →
      ∃ g, (updateManifestTransform m v).peerDependencies = some g ∧
        g (distName p) = some (if strStartsWith w (str "^") then str "^" ++ v else v) := by
  intro p hp v m f w hw hd hf
  have hmem : distName p ∈ remixPackages.all.map distName :=
    List.mem_map_of_mem distName hp
  have htr : truthy (f (distName p)) = true := by
    rw [hf]
    cases w with
    | nil => exact absurd rfl hw
    | cons c t => rfl
  have hnd : (remixPackages.all.map distName).Nodup := by decide
  rw [updateManifestTransform_fields, hd]
  refine ⟨_, rfl, ?_⟩
  show List.foldl (fun f p => updPeerF f (distName p) v) f remixPackages.all (distName p) = _
  rw [peerFold_apply v remixPackages.all hnd, if_pos ⟨hmem, htr⟩, hf]
  cases hb : strStartsWith w (str "^") with
  | false => simp [caretOf, hb]
  | true => simp [caretOf, hb]

/-- Claim C2, counterexample to the unamended statement: a
`peerDependencies` entry whose value is the empty string (no caret) is
present, so the claim requires it to become exactly `"2.0.0"`, but the
truthiness guard leaves it unchanged. -/
theorem updateRemixVersion_peer_empty_value_not_rewritten :
    ((⟨none, none, none,
        some (fun k => if k = distName "react" then some [] else none)⟩ : Manifest).peerDependencies.map
      (fun g => g (distName "react"))) = some (some []) ∧
    ((updateManifestTransform
        ⟨none, none, none,
          some (fun k => if k = distName "react" then some [] else none)⟩
        (str "2.0.0")).peerDependencies.map
      (fun g => g (distName "react"))) = some (some []) ∧
    some (some ([] : Str)) ≠ some (some (str "2.0.0")) := by
  refine ⟨rfl, by decide, by decide⟩

/-- Concrete instantiation of `updateRemixVersion_peer_preserves_caret`
at a caretted old value. -/
theorem updateRemixVersion_peer_preserves_caret_witness :
    ∃ g, (updateManifestTransform
        ⟨none, none, none,
          some (fun k => if k = distName "react" then some (str "^1.0.0") else none)⟩
        (str "2.0.0")).peerDependencies = some g ∧
      g (distName "react")
        = some (if strStartsWith (str "^1.0.0") (str "^") then str "^" ++ str "2.0.0" else str "2.0.0") :=
  updateRemixVersion_peer_preserves_caret "react" (by decide) (str "2.0.0")
    ⟨none, none, none,
      some (fun k => if k = distName "react" then some (str "^1.0.0") else none)⟩
    (fun k => if k = distName "react" then some (str "^1.0.0") else none)
    (str "^1.0.0") (by decide) rfl (by decide)

/-- Claim C4 (amended): the manifest transform is idempotent for every
target version that does not itself begin with a caret.  The proviso is
forced: for a caretted target version a caret accumulates on
caret-free peer entries, see
`updateManifestTransform_not_idempotent_for_caret_version`. -/
theorem updateManifestTransform_idempotent :
    ∀ (m : Manifest) (v : Str), strStartsWith v (str "^") = false →
      updateManifestTransform (updateManifestTransform m v) v = updateManifestTransform m v := by
  intro m v hv
  have hnd : (remixPackages.all.map distName).Nodup := by decide
  rw [updateManifestTransform_fields m v,
    updateManifestTransform_fields
      { version := some v
        dependencies :=
          m.dependencies.map
            (fun f => remixPackages.all.foldl (fun f p => updDepF f (distName p) v) f)
        devDependencies :=
          m.devDependencies.map
            (fun f => remixPackages.all.foldl (fun f p => updDepF f (distName p) v) f)
        peerDependencies :=
          m.peerDependencies.map
            (fun f => remixPackages.all.foldl (fun f p => updPeerF f (distName p) v) f) } v]
  simp only [Option.map_map]
  congr 1
  · exact optionMap_congr
      (fun f => funext (fun x => depsFold_idem v remixPackages.all f x)) m.dependencies
  · exact optionMap_congr
      (fun f => funext (fun x => depsFold_idem v remixPackages.all f x)) m.devDependencies
  · exact optionMap_congr
      (fun f => funext (fun x => peerFold_idem v hv remixPackages.all hnd f x)) m.peerDependencies

/-- Claim C4, counterexample to the unamended statement: with the
(unvalidated) target version `"^2.0.0"` and a caret-free peer entry,
one application yields `"^2.0.0"` but a second yields `"^^2.0.0"`. -/
theorem updateManifestTransform_not_idempotent_for_caret_version :
    ((updateManifestTransform
        (updateManifestTransform
          ⟨none, none, none,
            some (fun k => if k = distName "react" then some (str "1.0.0") else none)⟩
          (str "^2.0.0"))
        (str "^2.0.0")).peerDependencies.map (fun g => g (distName "react")))
      = some (some (str "^^2.0.0")) ∧
    ((updateManifestTransform
        ⟨none, none, none,
          some (fun k => if k = distName "react" then some (str "1.0.0") else none)⟩
        (str "^2.0.0")).peerDependencies.map (fun g => g (distName "react")))
      = some (some (str "^2.0.0")) ∧
    some (some (str "^^2.0.0")) ≠ some (some (str "^2.0.0")) := by
  refine ⟨by decide, by decide, by decide⟩

/-- Concrete instantiation of `updateManifestTransform_idempotent`. -/
theorem updateManifestTransform_idempotent_witness :
    strStartsWith (str "2.0.0") (str "^") = false ∧
    updateManifestTransform
        (updateManifestTransform
          ⟨none, none, none,
            some (fun k => if k = distName "react" then some (str "1.0.0") else none)⟩
          (str "2.0.0"))
        (str "2.0.0")
      = updateManifestTransform
          ⟨none, none, none,
            some (fun k => if k = distName "react" then some (str "1.0.0") else none)⟩
          (str "2.0.0") :=
  ⟨by decide,
    updateManifestTransform_idempotent
      ⟨none, none, none,
        some (fun k => if k = distName "react" then some (str "1.0.0") else none)⟩
      (str "2.0.0") (by decide)⟩

/-! ## Import maps -/

/-- JavaScript `s.split(sep)` for a single-character separator, on the
character-list model.  `splitChar c s` is never empty and
`""` splits to `[""]`, as in JavaScript. -/
def splitChar (c : Char) : Str → List Str
  | [] => [[]]
  | x :: xs =>
    match splitChar c xs with
    | [] => [[]]
    | h :: t => if x = c then [] :: h :: t else (x :: h) :: t

/-- JavaScript `parts.join("/")` for a single-character separator. -/
def joinSep (c : Char) : List Str → Str
  | [] => []
  | [x] => x
  | x :: xs => x ++ c :: joinSep c xs

lemma splitChar_ne_nil (c : Char) (s : Str) : splitChar c s ≠ [] := by
  cases s with
  | nil => simp [splitChar]
  | cons x xs =>
    unfold splitChar
    cases splitChar c xs with
    | nil => simp
    | cons h t =>
      by_cases hx : x = c
      · simp [hx]
      · simp [hx]

lemma splitChar_cons_eq (c x : Char) (xs : Str) (h : Str) (t : List Str)
    (hs : splitChar c xs = h :: t) :
    splitChar c (x :: xs) = if x = c then [] :: h :: t else (x :: h) :: t := by
  unfold splitChar
  rw [hs]

lemma joinSep_cons_cons (c : Char) (a b : Str) (l : List Str) :
    joinSep c (a :: b :: l) = a ++ c :: joinSep c (b :: l) := rfl

lemma joinSep_cons (c : Char) (x : Str) (t : List Str) (ht : t ≠ []) :
    joinSep c (x :: t) = x ++ c :: joinSep c t := by
  cases t with
  | nil => exact absurd rfl ht
  | cons b l => rfl

/-- `join` is a left inverse of `split`: decompositions are lossless. -/
lemma joinSep_splitChar (c : Char) : ∀ s : Str, joinSep c (splitChar c s) = s := by
  intro s
  induction s with
  | nil => rfl
  | cons x xs ih =>
    cases hs : splitChar c xs with
    | nil => exact absurd hs (splitChar_ne_nil c xs)
    | cons h t =>
      rw [hs] at ih
      rw [splitChar_cons_eq c x xs h t hs]
      by_cases hx : x = c
      · rw [if_pos hx, joinSep_cons_cons, ih, List.nil_append, hx]
      · rw [if_neg hx]
        cases t with
        | nil => simpa [joinSep] using ih
        | cons b l =>
          rw [joinSep_cons_cons, List.cons_append, ← joinSep_cons_cons, ih]

/-- No piece of a split contains the separator. -/
lemma splitChar_not_mem (c : Char) : ∀ (s : Str), ∀ a ∈ splitChar c s, c ∉ a := by
  intro s
  induction s with
  | nil =>
    intro a ha
    simp [splitChar] at ha
    simp [ha]
  | cons x xs ih =>
    intro a ha
    cases hs : splitChar c xs with
    | nil => exact absurd hs (splitChar_ne_nil c xs)
    | cons h t =>
      rw [splitChar_cons_eq c x xs h t hs] at ha
      have ihh : c ∉ h := ih h (hs ▸ List.mem_cons_self h t)
      by_cases hx : x = c
      · rw [if_pos hx] at ha
        rcases List.mem_cons.mp ha with h1 | h1
        · simp [h1]
        · exact ih a (hs ▸ h1)
      · rw [if_neg hx] at ha
        rcases List.mem_cons.mp ha with h1 | h1
        · subst h1
          intro hmem
          rcases List.mem_cons.mp hmem with h2 | h2
          · exact hx h2.symm
          · exact ihh h2
        · exact ih a (hs ▸ List.mem_cons_of_mem h h1)

/-- `getPackageNameFromImportSpecifier` from `scripts/utils.js`.  For a
scoped specifier the package name is the first two `/`-segments, else
the first segment; the rest (joined by `/`) is the import path.  A
scoped specifier with no `/` hits JavaScript's destructuring of an
absent second element: the template literal renders `undefined`, giving
`<scope>/undefined`. -/
def getPackageNameFromImportSpecifier (importSpecifier : Str) : Str × Str :=
  if strStartsWith importSpecifier (str "@") then
    match splitChar '/' importSpecifier with
    | [] => ([], [])
    | [scope] => (scope ++ str "/undefined", joinSep '/' [])
    | scope :: pkg :: path => (scope ++ str "/" ++ pkg, joinSep '/' path)
  else
    match splitChar '/' importSpecifier with
    | [] => ([], [])
    | pkg :: path => (pkg, joinSep '/' path)

lemma joinSep_eq_nil_iff (c : Char) (h : Str) (t : List Str) :
    joinSep c (h :: t) = [] ↔ h :: t = [[]] := by
  cases t with
  | nil => simp [joinSep]
  | cons b l =>
    rw [joinSep_cons_cons]
    cases h with
    | nil => simp
    | cons y ys => simp

/-- Claim C9 (amended): decomposing a specifier and recombining package
name and subpath is the identity, on the claim's domain minus the
specifiers consisting of the package name followed by a single trailing
slash (for those the empty trailing segment is dropped, see
`getPackageName_roundtrip_fails_on_trailing_slash`). -/
theorem getPackageName_roundtrip :
    ∀ s : Str, (strStartsWith s (str "@") = false ∨ '/' ∈ s) →
      s ≠ (getPackageNameFromImportSpecifier s).1 ++ str "/" →
      (getPackageNameFromImportSpecifier s).1
        ++ (if (getPackageNameFromImportSpecifier s).2 = [] then []
            else str "/" ++ (getPackageNameFromImportSpecifier s).2) = s := by
  intro s hscope hne
  by_cases hat : strStartsWith s (str "@") = true
  · rcases hscope with h1 | h1
    · rw [hat] at h1
      exact absurd h1 (by simp)
    cases hs : splitChar '/' s with
    | nil => exact absurd hs (splitChar_ne_nil '/' s)
    | cons scope t =>
      have hjoin : joinSep '/' (scope :: t) = s := by
        rw [← hs]
        exact joinSep_splitChar '/' s
      cases t with
      | nil =>
        have hse : s = scope := by rw [← hjoin]; rfl
        have hnot : '/' ∉ scope :=
          splitChar_not_mem '/' s scope (hs ▸ List.mem_cons_self scope [])
        exact absurd (hse ▸ h1) hnot
      | cons pkg path =>
        have hP : getPackageNameFromImportSpecifier s
            = (scope ++ str "/" ++ pkg, joinSep '/' path) := by
          unfold getPackageNameFromImportSpecifier
          rw [hat, if_pos rfl, hs]
        rw [hP] at hne ⊢
        show (scope ++ str "/" ++ pkg)
            ++ (if joinSep '/' path = [] then [] else str "/" ++ joinSep '/' path) = s
        cases path with
        | nil =>
          rw [if_pos (show joinSep '/' [] = ([] : Str) from rfl), List.append_nil,
            ← hjoin, joinSep_cons_cons, List.append_assoc]
          rfl
        | cons b l2 =>
          by_cases hj : joinSep '/' (b :: l2) = []
          · exfalso
            apply hne
            show s = (scope ++ str "/" ++ pkg) ++ str "/"
            have hpath : b :: l2 = [[]] := (joinSep_eq_nil_iff '/' b l2).mp hj
            rw [← hjoin, hpath, joinSep_cons_cons, joinSep_cons_cons]
            simp [joinSep, List.append_assoc]
            rfl
          · rw [if_neg hj, ← hjoin, joinSep_cons_cons, joinSep_cons_cons]
            simp [List.append_assoc]
            rfl
  · have hat' : strStartsWith s (str "@") = false := by
      cases h : strStartsWith s (str "@")
      · rfl
      · exact absurd h hat
    cases hs : splitChar '/' s with
    | nil => exact absurd hs (splitChar_ne_nil '/' s)
    | cons pkg path =>
      have hjoin : joinSep '/' (pkg :: path) = s := by
        rw [← hs]
        exact joinSep_splitChar '/' s
      have hP : getPackageNameFromImportSpecifier s = (pkg, joinSep '/' path) := by
        unfold getPackageNameFromImportSpecifier
        rw [hat', if_neg (by simp), hs]
      rw [hP] at hne ⊢
      show pkg ++ (if joinSep '/' path = [] then [] else str "/" ++ joinSep '/' path) = s
      cases path with
      | nil =>
        rw [if_pos (show joinSep '/' [] = ([] : Str) from rfl), List.append_nil, ← hjoin]
        rfl
      | cons b l2 =>
        by_cases hj : joinSep '/' (b :: l2) = []
        · exfalso
          apply hne
          show s = pkg ++ str "/"
          have hpath : b :: l2 = [[]] := (joinSep_eq_nil_iff '/' b l2).mp hj
          rw [← hjoin, hpath, joinSep_cons_cons]
          rfl
        · rw [if_neg hj, ← hjoin, joinSep_cons_cons]
          rfl

/-- Claim C9, counterexample to the unamended statement: the specifier
`"a/"` is in the claim's domain (it does not start with `@`), but its
decomposition is `("a", "")` and recombination yields `"a"`, not
`"a/"`. -/
theorem getPackageName_roundtrip_fails_on_trailing_slash :
    strStartsWith (str "a/") (str "@") = false ∧
    (getPackageNameFromImportSpecifier (str "a/")).1
      ++ (if (getPackageNameFromImportSpecifier (str "a/")).2 = [] then []
          else str "/" ++ (getPackageNameFromImportSpecifier (str "a/")).2)
      ≠ str "a/" := by
  refine ⟨by decide, by decide⟩

/-- Concrete instantiation of `getPackageName_roundtrip` on a scoped
specifier with a subpath. -/
theorem getPackageName_roundtrip_witness :
    (getPackageNameFromImportSpecifier (str "@remix-run/react/server")).1
      ++ (if (getPackageNameFromImportSpecifier (str "@remix-run/react/server")).2 = [] then []
          else str "/" ++ (getPackageNameFromImportSpecifier (str "@remix-run/react/server")).2)
      = str "@remix-run/react/server" :=
  getPackageName_roundtrip (str "@remix-run/react/server") (Or.inr (by decide)) (by decide)

/-- `remixPackagesFull` as computed inside `updateDenoImportMap`:
every registry name translated to its distribution name. -/
def remixPackagesFull : List Str := remixPackages.all.map distName

/-- One entry of the `updateDenoImportMap` rewrite: if the decomposed
package name is an internal distribution name and the literal specifier
is not `@remix-run/deno`, the URL becomes the versioned esm.sh endpoint
(with the subpath re-appended when non-empty); otherwise the entry is
returned unchanged.  (`entry.1` re-projects what the source destructures
once into `importName`.) -/
def rewriteImportEntry (v : Str) (entry : Str × Str) : Str × Str :=
  if remixPackagesFull.contains (getPackageNameFromImportSpecifier entry.1).1
      && !(entry.1 == str "@remix-run/deno") then
    (entry.1,
      str "https://esm.sh/" ++ (getPackageNameFromImportSpecifier entry.1).1
        ++ str "@" ++ v
        ++ (if !(getPackageNameFromImportSpecifier entry.1).2.isEmpty
            then str "/" ++ (getPackageNameFromImportSpecifier entry.1).2 else []))
  else entry

/-- Specified from the words of claim C3: the package name is the first
two slash-delimited segments when the specifier starts with `@`,
otherwise the first segment. -/
def claimPackageName (s : Str) : Str :=
  joinSep '/' ((splitChar '/' s).take (if strStartsWith s (str "@") then 2 else 1))

/-- Specified from the words of claim C3: the subpath is the remainder
of the slash-delimited segments. -/
def claimSubpath (s : Str) : Str :=
  joinSep '/' ((splitChar '/' s).drop (if strStartsWith s (str "@") then 2 else 1))

/-- Specified from the words of claim C3: rewrite exactly when the
decomposed package name is in the internal membership set (as a
distribution name) and the literal specifier is not the designated
exclusion `@remix-run/deno`. -/
def claimShouldRewrite (s : Str) : Bool :=
  remixPackagesFull.contains (claimPackageName s) && !(s == str "@remix-run/deno")

/-- Specified from the words of claim C3: the CDN base, the distribution
name, `@`, the target version, and `/<subpath>` only when the subpath is
non-empty. -/
def claimRewrittenUrl (v s : Str) : Str :=
  str "https://esm.sh/" ++ claimPackageName s ++ str "@" ++ v
    ++ (if claimSubpath s = [] then [] else str "/" ++ claimSubpath s)

lemma append_ne_of_last_ne (a u l : Str) (hne : l.drop (l.length - u.length) ≠ u) :
    a ++ u ≠ l := by
  intro heq
  apply hne
  rw [← heq, List.length_append, Nat.add_sub_cancel, List.drop_left]

lemma mem_full_has_slash : ∀ e ∈ remixPackagesFull, '/' ∈ e := by decide

lemma no_slash_not_mem_full {s : Str} (h : '/' ∉ s) : s ∉ remixPackagesFull :=
  fun hm => h (mem_full_has_slash s hm)

/-- No string of the shape `<scope>/undefined` (the degenerate JavaScript
decomposition of a scoped specifier without a slash) is an internal
distribution name. -/
lemma append_undefined_not_mem_full (a : Str) : a ++ str "/undefined" ∉ remixPackagesFull := by
  intro hm
  have hlist : remixPackagesFull =
      [str "@remix-run/architect", str "@remix-run/cloudflare-pages",
       str "@remix-run/cloudflare-workers", str "@remix-run/express",
       str "@remix-run/cloudflare", str "@remix-run/deno", str "@remix-run/node",
       str "@remix-run/dev", str "@remix-run/server-runtime", str "@remix-run/react",
       str "@remix-run/eslint-config", str "@remix-run/css-bundle",
       str "@remix-run/testing", str "@remix-run/serve"] := by decide
  rw [hlist] at hm
  simp only [List.mem_cons, List.not_mem_nil, or_false] at hm
  rcases hm with h|h|h|h|h|h|h|h|h|h|h|h|h|h <;>
    exact append_ne_of_last_ne a (str "/undefined") _ (by decide) h

lemma subpath_if_eq (j A : Str) :
    (if !j.isEmpty then A else []) = (if j = [] then [] else A) := by
  cases j <;> simp

/-- Claim C3: an import-map entry's URL is rewritten if and only if the
specifier's decomposed package name (first two slash-delimited segments
for a scoped specifier, otherwise the first segment) is an internal
distribution name and the literal specifier is not `@remix-run/deno`;
a rewritten URL is the CDN base, the distribution name, `@`, the target
version, and `/<subpath>` exactly when the subpath is non-empty; every
other entry is unchanged. -/
theorem rewriteImportEntry_spec :
    ∀ (v name url : Str),
      rewriteImportEntry v (name, url)
        = if claimShouldRewrite name = true then (name, claimRewrittenUrl v name)
          else (name, url) := by
  intro v name url
  by_cases hat : strStartsWith name (str "@") = true
  · cases hs : splitChar '/' name with
    | nil => exact absurd hs (splitChar_ne_nil '/' name)
    | cons scope t =>
      cases t with
      | nil =>
        have hname : name = scope := by
          rw [← joinSep_splitChar '/' name, hs]
          rfl
        have hP : getPackageNameFromImportSpecifier name
            = (scope ++ str "/undefined", []) := by
          unfold getPackageNameFromImportSpecifier
          rw [hat, if_pos rfl, hs]
          rfl
        have hcontains1 : remixPackagesFull.contains (scope ++ str "/undefined") = false := by
          simpa using append_undefined_not_mem_full scope
        have hclaimPn : claimPackageName name = name := by
          unfold claimPackageName
          rw [hat, if_pos rfl, hs]
          exact hname.symm
        have hslash : '/' ∉ name := by
          rw [hname]
          exact splitChar_not_mem '/' name scope (hs ▸ List.mem_cons_self scope [])
        have h1 : scope ++ str "/undefined" ∉ remixPackagesFull :=
          append_undefined_not_mem_full scope
        have h2 : claimPackageName name ∉ remixPackagesFull := by
          rw [hclaimPn]
          exact no_slash_not_mem_full hslash
        simp [rewriteImportEntry, claimShouldRewrite, hP, h1, h2]
      | cons pkg path =>
        have hP : getPackageNameFromImportSpecifier name
            = (scope ++ str "/" ++ pkg, joinSep '/' path) := by
          unfold getPackageNameFromImportSpecifier
          rw [hat, if_pos rfl, hs]
        have hclaimPn : claimPackageName name = scope ++ str "/" ++ pkg := by
          unfold claimPackageName
          rw [hat, if_pos rfl, hs]
          show joinSep '/' [scope, pkg] = scope ++ str "/" ++ pkg
          rw [List.append_assoc]
          rfl
        have hclaimSub : claimSubpath name = joinSep '/' path := by
          unfold claimSubpath
          rw [hat, if_pos rfl, hs]
          rfl
        simp only [rewriteImportEntry, claimShouldRewrite, claimRewrittenUrl,
          hP, hclaimPn, hclaimSub]
        rw [subpath_if_eq]
  · have hat' : strStartsWith name (str "@") = false := by
      cases h : strStartsWith name (str "@")
      · rfl
      · exact absurd h hat
    cases hs : splitChar '/' name with
    | nil => exact absurd hs (splitChar_ne_nil '/' name)
    | cons pkg path =>
      have hP : getPackageNameFromImportSpecifier name = (pkg, joinSep '/' path) := by
        unfold getPackageNameFromImportSpecifier
        rw [hat', if_neg (by simp), hs]
      have hclaimPn : claimPackageName name = pkg := by
        unfold claimPackageName
        rw [hat', if_neg (by simp), hs]
        rfl
      have hclaimSub : claimSubpath name = joinSep '/' path := by
        unfold claimSubpath
        rw [hat', if_neg (by simp), hs]
        rfl
      simp only [rewriteImportEntry, claimShouldRewrite, claimRewrittenUrl,
        hP, hclaimPn, hclaimSub]
      rw [subpath_if_eq]

/-- A top-level field of an import-map document: the `imports` mapping
(specifier to URL) or an opaque other value. -/
inductive TopVal where
  | imports (entries : List (Str × Str))
  | other (raw : Str)

/-- Document-level part of `updateDenoImportMap`:
`let { imports, ...json } = ...` followed by writing
`{ ...json, imports: newImports }`.  The rest-spread keeps every
non-`imports` field in its original order; re-adding `imports` to an
object that no longer has that key appends it as the last key.  `none`
models the TypeError thrown when the document has no `imports` object
(JavaScript object keys are unique, so first-match lookup and filtering
agree). -/
def updateDenoImportMapDoc (v : Str) (doc : List (Str × TopVal)) :
    Option (List (Str × TopVal)) :=
  match doc.lookup (str "imports") with
  | some (TopVal.imports es) =>
      some (doc.filter (fun e => !(e.1 == str "imports"))
        ++ [(str "imports", TopVal.imports (es.map (rewriteImportEntry v)))])
  | _ => none

lemma rewriteImportEntry_fst (v : Str) (e : Str × Str) :
    (rewriteImportEntry v e).1 = e.1 := by
  unfold rewriteImportEntry
  split <;> rfl

lemma lookup_cons {β : Type} (k a : Str) (b : β) (t : List (Str × β)) :
    ((a, b) :: t).lookup k = if k = a then some b else t.lookup k := by
  by_cases h : k = a
  · simp [List.lookup, h]
  · simp [List.lookup, h, beq_eq_false_iff_ne.mpr h]

lemma lookup_filter_not_key {β : Type} (key : Str) :
    ∀ (l : List (Str × β)) (k : Str), k ≠ key →
      (l.filter (fun e => !(e.1 == key))).lookup k = l.lookup k := by
  intro l
  induction l with
  | nil => intro k _; rfl
  | cons e t ih =>
    intro k hk
    obtain ⟨a, b⟩ := e
    by_cases ha : a = key
    · rw [List.filter_cons, if_neg (by simp [ha]), lookup_cons,
        if_neg (fun h => hk (h.trans ha)), ih k hk]
    · rw [List.filter_cons, if_pos (by simp [ha]), lookup_cons, lookup_cons]
      by_cases h : k = a
      · rw [if_pos h, if_pos h]
      · rw [if_neg h, if_neg h, ih k hk]

lemma lookup_filter_self {β : Type} (key : Str) :
    ∀ (l : List (Str × β)),
      (l.filter (fun e => !(e.1 == key))).lookup key = none := by
  intro l
  induction l with
  | nil => rfl
  | cons e t ih =>
    obtain ⟨a, b⟩ := e
    by_cases ha : a = key
    · rw [List.filter_cons, if_neg (by simp [ha]), ih]
    · rw [List.filter_cons, if_pos (by simp [ha]), lookup_cons,
        if_neg (fun h => ha h.symm), ih]

lemma lookup_append_of_left_none {β : Type} (k : Str) :
    ∀ (l1 l2 : List (Str × β)), l1.lookup k = none →
      (l1 ++ l2).lookup k = l2.lookup k := by
  intro l1
  induction l1 with
  | nil => intro l2 _; rfl
  | cons e t ih =>
    intro l2 h
    obtain ⟨a, b⟩ := e
    rw [List.cons_append, lookup_cons]
    rw [lookup_cons] at h
    by_cases hk : k = a
    · rw [if_pos hk] at h
      exact absurd h (by simp)
    · rw [if_neg hk] at h
      rw [if_neg hk, ih l2 h]

lemma lookup_append_single_ne {β : Type} (k key : Str) (val : β) (hk : k ≠ key) :
    ∀ (l1 : List (Str × β)), (l1 ++ [(key, val)]).lookup k = l1.lookup k := by
  intro l1
  induction l1 with
  | nil =>
    show ([(key, val)] : List (Str × β)).lookup k = none
    rw [lookup_cons, if_neg hk]
    rfl
  | cons e t ih =>
    obtain ⟨a, b⟩ := e
    rw [List.cons_append, lookup_cons, lookup_cons]
    by_cases h : k = a
    · rw [if_pos h, if_pos h]
    · rw [if_neg h, if_neg h, ih]

/-- Claim C7 (amended): the rewritten document keeps exactly the
specifier keys of the input `imports` object (in order), passes every
non-`imports` top-level field through untouched and in original relative
order, and places the `imports` key last — not in its original position,
see `updateDenoImportMap_moves_imports_last`. -/
theorem updateDenoImportMap_frame :
    ∀ (v : Str) (doc : List (Str × TopVal)) (es : List (Str × Str)),
      doc.lookup (str "imports") = some (TopVal.imports es) →
      ∃ out newEs,
        updateDenoImportMapDoc v doc = some out ∧
        out = doc.filter (fun e => !(e.1 == str "imports"))
          ++ [(str "imports", TopVal.imports newEs)] ∧
        newEs.map Prod.fst = es.map Prod.fst ∧
        (∀ k, k ≠ str "imports" → out.lookup k = doc.lookup k) ∧
        out.lookup (str "imports") = some (TopVal.imports newEs) := by
  intro v doc es h
  refine ⟨_, es.map (rewriteImportEntry v), ?_, rfl, ?_, ?_, ?_⟩
  · unfold updateDenoImportMapDoc
    rw [h]
  · rw [List.map_map]
    exact List.map_congr_left (fun e _ => rewriteImportEntry_fst v e)
  · intro k hk
    rw [lookup_append_single_ne k (str "imports") _ hk,
      lookup_filter_not_key (str "imports") doc k hk]
  · rw [lookup_append_of_left_none (str "imports") _ _
      (lookup_filter_self (str "imports") doc),
      lookup_cons, if_pos rfl]

/-- Claim C7, counterexample to the unamended statement: in a document
whose `imports` key comes first, the rewrite moves `imports` to the last
position (the key order changes from `[imports, other]` to
`[other, imports]`), so the original key position is not preserved. -/
theorem updateDenoImportMap_moves_imports_last :
    (updateDenoImportMapDoc (str "2.0.0")
        [(str "imports", TopVal.imports []),
         (str "other", TopVal.other (str "x"))]).map
      (fun out => out.map Prod.fst)
      = some [str "other", str "imports"] ∧
    ([(str "imports", TopVal.imports []),
      (str "other", TopVal.other (str "x"))].map Prod.fst
      = [str "imports", str "other"]) ∧
    [str "other", str "imports"] ≠ [str "imports", str "other"] := by
  refine ⟨by decide, by decide, by decide⟩

/-- Concrete instantiation of `updateDenoImportMap_frame`. -/
theorem updateDenoImportMap_frame_witness :
    ∃ out newEs,
      updateDenoImportMapDoc (str "2.0.0")
          [(str "imports", TopVal.imports [(str "react-dom", str "https://cdn/react-dom@18.0.0")]),
           (str "other", TopVal.other (str "x"))] = some out ∧
      out = [(str "imports", TopVal.imports [(str "react-dom", str "https://cdn/react-dom@18.0.0")]),
             (str "other", TopVal.other (str "x"))].filter
               (fun e => !(e.1 == str "imports"))
        ++ [(str "imports", TopVal.imports newEs)] ∧
      newEs.map Prod.fst
        = [(str "react-dom", str "https://cdn/react-dom@18.0.0")].map Prod.fst ∧
      (∀ k, k ≠ str "imports" →
        out.lookup k
          = [(str "imports", TopVal.imports [(str "react-dom", str "https://cdn/react-dom@18.0.0")]),
             (str "other", TopVal.other (str "x"))].lookup k) ∧
      out.lookup (str "imports") = some (TopVal.imports newEs) :=
  updateDenoImportMap_frame (str "2.0.0")
    [(str "imports", TopVal.imports [(str "react-dom", str "https://cdn/react-dom@18.0.0")]),
     (str "other", TopVal.other (str "x"))]
    [(str "react-dom", str "https://cdn/react-dom@18.0.0")] rfl

/-! ## Filesystem, console and version-control world

Asynchronous I/O is modelled by explicit state passing: every fallible
operation maps a `World` to `World × Bool`, where the flag is `true`
when the underlying promise resolved and `false` when it rejected
(an uncaught exception).  Sequencing that propagates rejections is
`andThen`; a `try/catch` shows up as an operation that always returns
`true`.  The two `Promise.all`-ed import-map updates act on distinct
files and are sequenced left to right. -/

/-- `path.resolve(__dirname, "..")`: the repository root, an opaque
runtime-determined path modelled as a fixed marker string. -/
def rootDir : String := "<rootDir>"

/-- `path.join` for two segments. -/
def pathJoin (a b : String) : String := a ++ "/" ++ b

/-- `packageJson(packageName, directory)`; `path.join` drops the empty
default `directory` segment. -/
def packageJson (packageName : String) (directory : String) : String :=
  if directory = "" then pathJoin (pathJoin rootDir packageName) "package.json"
  else pathJoin (pathJoin (pathJoin rootDir directory) packageName) "package.json"

/-- Parsed content of a JSON file on disk: a manifest-shaped object, an
import-map document, the JSON literal `null` (falsy after parsing), or
text that fails to parse. -/
inductive FileData where
  | man (m : Manifest)
  | imap (doc : List (Str × TopVal))
  | nullJson
  | invalid

/-- The world state threaded through the release: file contents by path,
which paths accept writes, which git commands exit non-zero, the console
log, and the sequence of attempted git commands. -/
structure World where
  files : String → Option FileData
  writeOk : String → Bool
  gitFail : String → Bool
  log : List String
  gitLog : List String

def addLog (w : World) (m : String) : World := { w with log := w.log ++ [m] }

/-- `jsonfile.writeFile`: on success the path now holds the data; a
failing write rejects and leaves the file system unchanged. -/
def writeFileW (w : World) (p : String) (d : FileData) : World × Bool :=
  if w.writeOk p then
    ({ w with files := fun q => if q = p then some d else w.files q }, true)
  else (w, false)

/-- Short-circuiting sequencing of fallible steps (`await` chaining): a
rejection skips everything after it. -/
def andThen (r : World × Bool) (f : World → World × Bool) : World × Bool :=
  if r.2 then f r.1 else r

/-- `updatePackageConfig` from `scripts/utils.js`: read the manifest at
`packages/<packageName>/package.json`, skip (with a log) when the JSON
is falsy, transform, write back.  The whole body is in `try { .. }
catch { return; }`, so every failure — read, parse, transform or
write — is swallowed and the caller always sees a normal return
(flag `true`).  Non-manifest JSON at a manifest path is modelled as a
swallowed mismatch. -/
def updatePackageConfig (w : World) (packageName : String)
    (transform : Manifest → Except Unit Manifest) : World × Bool :=
  match w.files (packageJson packageName "packages") with
  | none => (w, true)
  | some FileData.invalid => (w, true)
  | some FileData.nullJson =>
      (addLog w ("No package.json found for " ++ packageName ++ "; skipping"), true)
  | some (FileData.man m) =>
      match transform m with
      | Except.error _ => (w, true)
      | Except.ok m' =>
          ((writeFileW w (packageJson packageName "packages") (FileData.man m')).1, true)
  | some (FileData.imap _) => (w, true)

/-- The log name computed by `updateRemixVersion`:
`remix-x` renders as `@remix-run/x`. -/
def logName (packageName : String) : String :=
  if packageName.startsWith "remix-" then "@remix-run/" ++ packageName.drop 6
  else packageName

/-- `updateRemixVersion`: apply the manifest transform through
`updatePackageConfig` (which never raises), then always print the green
success line (chalk colouring elided). -/
def updateRemixVersion (w : World) (packageName : String) (v : Str)
    (successMessage : Option String) : World :=
  addLog
    (updatePackageConfig w packageName
      (fun config => Except.ok (updateManifestTransform config v))).1
    ("  " ++ successMessage.getD
      ("Updated " ++ logName packageName ++ " to version " ++ String.mk v))

/-- `updateDeploymentScriptVersion`: read
`scripts/deployment-test/package.json`, pin `@remix-run/dev` to the
target version, write back, log.  There is no `try/catch` here: a
missing or unparseable file, a missing `dependencies` object, or a
failing write rejects the promise. -/
def updateDeploymentScriptVersion (w : World) (v : Str) : World × Bool :=
  match w.files (packageJson "deployment-test" "scripts") with
  | some (FileData.man m) =>
      match m.dependencies with
      | some f =>
          let f' : Str → Option Str :=
            fun k => if k = str "@remix-run/dev" then some v else f k
          let m' : Manifest := { m with dependencies := some f' }
          match writeFileW w (packageJson "deployment-test" "scripts") (FileData.man m') with
          | (w', true) =>
              (addLog w' ("  Updated Remix to version " ++ String.mk v
                ++ " in scripts/deployment-test"), true)
          | (w', false) => (w', false)
      | none => (w, false)
  | _ => (w, false)

/-- `updateDenoImportMap` at the world level: read the import map,
rewrite it with `updateDenoImportMapDoc`, write back.  No `try/catch`:
read, shape and write failures reject. -/
def updateDenoImportMap (w : World) (importMapPath : String) (v : Str) : World × Bool :=
  match w.files importMapPath with
  | some (FileData.imap doc) =>
      match updateDenoImportMapDoc v doc with
      | some doc' => writeFileW w importMapPath (FileData.imap doc')
      | none => (w, false)
  | _ => (w, false)

/-- `execSync` of a git command: the attempt is recorded; a non-zero
exit (per `gitFail`) throws. -/
def execGit (w : World) (cmd : String) : World × Bool :=
  ({ w with gitLog := w.gitLog ++ [cmd] }, !w.gitFail cmd)

def gitCommitCmd (v : Str) : String :=
  "git commit --all --message=\"Version " ++ String.mk v ++ "\""

def gitTagCmd (v : Str) : String :=
  "git tag -a -m \"Version " ++ String.mk v ++ "\" v" ++ String.mk v

def importMapPath1 : String := pathJoin ".vscode" "deno_resolve_npm_imports.json"

def importMapPath2 : String :=
  pathJoin (pathJoin (pathJoin (pathJoin "templates" "classic-remix-compiler") "deno")
    ".vscode") "resolve_npm_imports.json"

/-- Steps 3–5 of `incrementRemixVersion`: the two import maps (the
`Promise.all` pair, sequenced), the deployment-test manifest, then the
commit and the annotated tag, each `await`ed so a rejection aborts the
rest. -/
def releasePhase2 (w3 : World) (v : Str) : World × Bool :=
  andThen (updateDenoImportMap w3 (pathJoin rootDir importMapPath1) v) fun w4 =>
  andThen (updateDenoImportMap w4 (pathJoin rootDir importMapPath2) v) fun w5 =>
  andThen (updateDeploymentScriptVersion w5 v) fun w6 =>
  andThen (execGit w6 (gitCommitCmd v)) fun w7 =>
  andThen (execGit w7 (gitTagCmd v)) fun w8 =>
  (addLog w8 ("  Committed and tagged version " ++ String.mk v), true)

/-- `incrementRemixVersion`: update `remix` and `create-remix`, then
every registry package's manifest (steps 1–2, none of which can
reject), then run steps 3–5. -/
def incrementRemixVersion (w : World) (v : Str) : World × Bool :=
  releasePhase2
    (remixPackages.all.foldl
      (fun acc name => updateRemixVersion acc ("remix-" ++ name) v none)
      (updateRemixVersion (updateRemixVersion w "remix" v none) "create-remix" v none))
    v

/-- Claim C10: `updatePackageConfig` returns normally for every file
system state and every transform — a missing file, unparseable JSON, a
throwing transform and a failing write are all swallowed; in the
failed-write case the state is unchanged and the result is the same
normal return a successful update produces, so the caller cannot
distinguish the two. -/
theorem updatePackageConfig_never_raises :
    ∀ (w : World) (packageName : String) (t : Manifest → Except Unit Manifest),
      (updatePackageConfig w packageName t).2 = true ∧
      (w.files (packageJson packageName "packages") = none →
        updatePackageConfig w packageName t = (w, true)) ∧
      (w.files (packageJson packageName "packages") = some FileData.invalid →
        updatePackageConfig w packageName t = (w, true)) ∧
      (∀ m, w.files (packageJson packageName "packages") = some (FileData.man m) →
        ∀ e, t m = Except.error e →
          updatePackageConfig w packageName t = (w, true)) ∧
      (∀ m m', w.files (packageJson packageName "packages") = some (FileData.man m) →
        t m = Except.ok m' →
        w.writeOk (packageJson packageName "packages") = false →
          updatePackageConfig w packageName t = (w, true)) := by
  intro w pkg t
  refine ⟨?_, ?_, ?_, ?_, ?_⟩
  · cases hf : w.files (packageJson pkg "packages") with
    | none => simp [updatePackageConfig, hf]
    | some d =>
      cases d with
      | man m =>
        cases ht : t m with
        | error e => simp [updatePackageConfig, hf, ht]
        | ok m' => simp [updatePackageConfig, hf, ht]
      | imap doc => simp [updatePackageConfig, hf]
      | nullJson => simp [updatePackageConfig, hf]
      | invalid => simp [updatePackageConfig, hf]
  · intro h
    unfold updatePackageConfig
    rw [h]
  · intro h
    unfold updatePackageConfig
    rw [h]
  · intro m h e he
    simp [updatePackageConfig, h, he]
  · intro m m' h ht hw
    simp [updatePackageConfig, h, ht, writeFileW, hw]

/-- A world with a manifest whose location rejects every write, used to
instantiate the failed-write clause of claim C10. -/
def worldUnwritable : World :=
  { files := fun p =>
      if p = packageJson "remix-react" "packages" then
        some (FileData.man ⟨some (str "1.0.0"), none, none, none⟩)
      else none
    writeOk := fun _ => false
    gitFail := fun _ => false
    log := []
    gitLog := [] }

/-- Concrete instantiation of `updatePackageConfig_never_raises`: a
failed write still returns normally with the world unchanged. -/
theorem updatePackageConfig_never_raises_witness :
    (updatePackageConfig worldUnwritable "remix-react" (fun m => Except.ok m)).2 = true ∧
    updatePackageConfig worldUnwritable "remix-react" (fun m => Except.ok m)
      = (worldUnwritable, true) :=
  ⟨(updatePackageConfig_never_raises worldUnwritable "remix-react" (fun m => Except.ok m)).1,
    (updatePackageConfig_never_raises worldUnwritable "remix-react"
        (fun m => Except.ok m)).2.2.2.2
      ⟨some (str "1.0.0"), none, none, none⟩ ⟨some (str "1.0.0"), none, none, none⟩
      rfl rfl rfl⟩

/-- Claim C6: a location holding no readable, parseable manifest makes
the spec's `updateManifest` (code: `updateRemixVersion`, whose manifest
I/O runs through `updatePackageConfig`) complete without raising: no
file is created, the file system and git state are untouched, and the
operation still logs its line. -/
theorem updateRemixVersion_missing_manifest_noop :
    ∀ (w : World) (packageName : String) (v : Str) (s : Option String),
      (w.files (packageJson packageName "packages") = none ∨
        w.files (packageJson packageName "packages") = some FileData.invalid) →
      (updateRemixVersion w packageName v s).files = w.files ∧
      (updateRemixVersion w packageName v s).gitLog = w.gitLog ∧
      (updateRemixVersion w packageName v s).log
        = w.log ++ ["  " ++ s.getD ("Updated " ++ logName packageName
            ++ " to version " ++ String.mk v)] := by
  intro w pkg v s h
  have hupc : updatePackageConfig w pkg
      (fun config => Except.ok (updateManifestTransform config v)) = (w, true) := by
    rcases h with h | h
    · unfold updatePackageConfig
      rw [h]
    · unfold updatePackageConfig
      rw [h]
  unfold updateRemixVersion
  rw [hupc]
  exact ⟨rfl, rfl, rfl⟩

/-- A world with no files at all. -/
def worldEmpty : World :=
  { files := fun _ => none
    writeOk := fun _ => true
    gitFail := fun _ => false
    log := []
    gitLog := [] }

/-- Concrete instantiation of `updateRemixVersion_missing_manifest_noop`. -/
theorem updateRemixVersion_missing_manifest_noop_witness :
    (updateRemixVersion worldEmpty "remix-react" (str "2.0.0") none).files
      = worldEmpty.files ∧
    (updateRemixVersion worldEmpty "remix-react" (str "2.0.0") none).gitLog
      = worldEmpty.gitLog ∧
    (updateRemixVersion worldEmpty "remix-react" (str "2.0.0") none).log
      = worldEmpty.log ++ ["  " ++ (none : Option String).getD
          ("Updated " ++ logName "remix-react" ++ " to version "
            ++ String.mk (str "2.0.0"))] :=
  updateRemixVersion_missing_manifest_noop worldEmpty "remix-react" (str "2.0.0") none
    (Or.inl rfl)

lemma andThen_false {w : World} {f : World → World × Bool} :
    andThen (w, false) f = (w, false) := rfl

lemma andThen_true {w : World} {f : World → World × Bool} :
    andThen (w, true) f = f w := rfl

/-- `updatePackageConfig` never touches the git state and only ever
writes its own manifest path. -/
lemma updatePackageConfig_world_frame (w : World) (pkg : String)
    (t : Manifest → Except Unit Manifest) :
    (updatePackageConfig w pkg t).1.gitLog = w.gitLog ∧
    (updatePackageConfig w pkg t).1.gitFail = w.gitFail ∧
    ∀ q, q ≠ packageJson pkg "packages" →
      (updatePackageConfig w pkg t).1.files q = w.files q := by
  cases hf : w.files (packageJson pkg "packages") with
  | none => simp [updatePackageConfig, hf]
  | some d =>
    cases d with
    | man m =>
      cases ht : t m with
      | error e => simp [updatePackageConfig, hf, ht]
      | ok m' =>
        cases hw : w.writeOk (packageJson pkg "packages") with
        | false => simp [updatePackageConfig, hf, ht, writeFileW, hw]
        | true =>
          refine ⟨?_, ?_, ?_⟩
          · simp [updatePackageConfig, hf, ht, writeFileW, hw]
          · simp [updatePackageConfig, hf, ht, writeFileW, hw]
          · intro q hq
            simp [updatePackageConfig, hf, ht, writeFileW, hw, hq]
    | imap doc => simp [updatePackageConfig, hf]
    | nullJson => simp [updatePackageConfig, hf, addLog]
    | invalid => simp [updatePackageConfig, hf]

/-- `updateRemixVersion` never touches the git state and only ever
writes its own manifest path. -/
lemma updateRemixVersion_world_frame (w : World) (pkg : String) (v : Str)
    (s : Option String) :
    (updateRemixVersion w pkg v s).gitLog = w.gitLog ∧
    (updateRemixVersion w pkg v s).gitFail = w.gitFail ∧
    ∀ q, q ≠ packageJson pkg "packages" →
      (updateRemixVersion w pkg v s).files q = w.files q := by
  have h := updatePackageConfig_world_frame w pkg
    (fun config => Except.ok (updateManifestTransform config v))
  exact ⟨h.1, h.2.1, h.2.2⟩

/-- The per-package manifest loop of step 2 never touches the git state
and writes only under `packages/`. -/
lemma packagesFold_world_frame (v : Str) :
    ∀ (l : List String) (w : World),
      (l.foldl (fun acc name => updateRemixVersion acc ("remix-" ++ name) v none) w).gitLog
        = w.gitLog ∧
      (l.foldl (fun acc name => updateRemixVersion acc ("remix-" ++ name) v none) w).gitFail
        = w.gitFail ∧
      ∀ q, (∀ n ∈ l, q ≠ packageJson ("remix-" ++ n) "packages") →
        (l.foldl (fun acc name => updateRemixVersion acc ("remix-" ++ name) v none) w).files q
          = w.files q := by
  intro l
  induction l with
  | nil => intro w; exact ⟨rfl, rfl, fun q _ => rfl⟩
  | cons n t ih =>
    intro w
    rw [List.foldl_cons]
    have hu := updateRemixVersion_world_frame w ("remix-" ++ n) v none
    have hi := ih (updateRemixVersion w ("remix-" ++ n) v none)
    refine ⟨hi.1.trans hu.1, hi.2.1.trans hu.2.1, ?_⟩
    intro q hq
    rw [hi.2.2 q (fun n2 hn2 => hq n2 (List.mem_cons_of_mem n hn2)),
      hu.2.2 q (hq n (List.mem_cons_self n t))]

/-- `updateDenoImportMap` never touches the git state and only ever
writes its own path. -/
lemma updateDenoImportMap_world_frame (w : World) (p : String) (v : Str) :
    (updateDenoImportMap w p v).1.gitLog = w.gitLog ∧
    (updateDenoImportMap w p v).1.gitFail = w.gitFail ∧
    ∀ q, q ≠ p → (updateDenoImportMap w p v).1.files q = w.files q := by
  cases hf : w.files p with
  | none => simp [updateDenoImportMap, hf]
  | some d =>
    cases d with
    | imap doc =>
      cases hd : updateDenoImportMapDoc v doc with
      | none => simp [updateDenoImportMap, hf, hd]
      | some doc' =>
        cases hw : w.writeOk p with
        | false => simp [updateDenoImportMap, hf, hd, writeFileW, hw]
        | true =>
          refine ⟨?_, ?_, ?_⟩
          · simp [updateDenoImportMap, hf, hd, writeFileW, hw]
          · simp [updateDenoImportMap, hf, hd, writeFileW, hw]
          · intro q hq
            simp [updateDenoImportMap, hf, hd, writeFileW, hw, hq]
    | man m => simp [updateDenoImportMap, hf]
    | nullJson => simp [updateDenoImportMap, hf]
    | invalid => simp [updateDenoImportMap, hf]

/-- `updateDeploymentScriptVersion` never touches the git state. -/
lemma updateDeploymentScriptVersion_world_frame (w : World) (v : Str) :
    (updateDeploymentScriptVersion w v).1.gitLog = w.gitLog ∧
    (updateDeploymentScriptVersion w v).1.gitFail = w.gitFail := by
  cases hf : w.files (packageJson "deployment-test" "scripts") with
  | none => simp [updateDeploymentScriptVersion, hf]
  | some d =>
    cases d with
    | man m =>
      cases hdep : m.dependencies with
      | none => simp [updateDeploymentScriptVersion, hf, hdep]
      | some f =>
        cases hw : w.writeOk (packageJson "deployment-test" "scripts") with
        | false => simp [updateDeploymentScriptVersion, hf, hdep, writeFileW, hw]
        | true => simp [updateDeploymentScriptVersion, hf, hdep, writeFileW, hw, addLog]
    | imap doc => simp [updateDeploymentScriptVersion, hf]
    | nullJson => simp [updateDeploymentScriptVersion, hf]
    | invalid => simp [updateDeploymentScriptVersion, hf]

/-- A missing deployment-test manifest makes step 4 reject at once. -/
lemma updateDeploymentScriptVersion_none (w : World) (v : Str)
    (h : w.files (packageJson "deployment-test" "scripts") = none) :
    updateDeploymentScriptVersion w v = (w, false) := by
  unfold updateDeploymentScriptVersion
  rw [h]

/-- Steps 3–5 abort before any git command when the deployment-test
manifest is missing. -/
lemma releasePhase2_aborts (w3 : World) (v : Str)
    (h3 : w3.files (packageJson "deployment-test" "scripts") = none) :
    (releasePhase2 w3 v).2 = false ∧ (releasePhase2 w3 v).1.gitLog = w3.gitLog := by
  unfold releasePhase2
  rcases h4 : updateDenoImportMap w3 (pathJoin rootDir importMapPath1) v with ⟨w4, b4⟩
  have hf4 := updateDenoImportMap_world_frame w3 (pathJoin rootDir importMapPath1) v
  rw [h4] at hf4
  cases b4 with
  | false => exact ⟨rfl, hf4.1⟩
  | true =>
    simp only [andThen_true]
    rcases h5 : updateDenoImportMap w4 (pathJoin rootDir importMapPath2) v with ⟨w5, b5⟩
    have hf5 := updateDenoImportMap_world_frame w4 (pathJoin rootDir importMapPath2) v
    rw [h5] at hf5
    cases b5 with
    | false => exact ⟨rfl, hf5.1.trans hf4.1⟩
    | true =>
      simp only [andThen_true]
      have hd5 : w5.files (packageJson "deployment-test" "scripts") = none := by
        rw [hf5.2.2 _ (by decide), hf4.2.2 _ (by decide), h3]
      rw [updateDeploymentScriptVersion_none w5 v hd5]
      exact ⟨rfl, hf5.1.trans hf4.1⟩

/-- Git behaviour of steps 3–5: if the phase succeeds it appended
exactly the commit command and then the tag command; in every case the
appended git log is a prefix of that pair in order (no retry), and a
failing commit or tag forces a failing result. -/
lemma releasePhase2_git (w3 : World) (v : Str) :
    ((releasePhase2 w3 v).2 = true →
      (releasePhase2 w3 v).1.gitLog = w3.gitLog ++ [gitCommitCmd v, gitTagCmd v] ∧
      w3.gitFail (gitCommitCmd v) = false ∧ w3.gitFail (gitTagCmd v) = false) ∧
    ((releasePhase2 w3 v).1.gitLog = w3.gitLog ∨
      (releasePhase2 w3 v).1.gitLog = w3.gitLog ++ [gitCommitCmd v] ∨
      (releasePhase2 w3 v).1.gitLog = w3.gitLog ++ [gitCommitCmd v, gitTagCmd v]) ∧
    (w3.gitFail (gitCommitCmd v) = true → (releasePhase2 w3 v).2 = false) ∧
    (w3.gitFail (gitTagCmd v) = true → (releasePhase2 w3 v).2 = false) := by
  unfold releasePhase2
  rcases h4 : updateDenoImportMap w3 (pathJoin rootDir importMapPath1) v with ⟨w4, b4⟩
  have hf4 := updateDenoImportMap_world_frame w3 (pathJoin rootDir importMapPath1) v
  rw [h4] at hf4
  cases b4 with
  | false =>
    exact ⟨fun h => absurd h Bool.false_ne_true, Or.inl hf4.1, fun _ => rfl, fun _ => rfl⟩
  | true =>
    simp only [andThen_true]
    rcases h5 : updateDenoImportMap w4 (pathJoin rootDir importMapPath2) v with ⟨w5, b5⟩
    have hf5 := updateDenoImportMap_world_frame w4 (pathJoin rootDir importMapPath2) v
    rw [h5] at hf5
    cases b5 with
    | false =>
      exact ⟨fun h => absurd h Bool.false_ne_true, Or.inl (hf5.1.trans hf4.1),
        fun _ => rfl, fun _ => rfl⟩
    | true =>
      simp only [andThen_true]
      rcases h6 : updateDeploymentScriptVersion w5 v with ⟨w6, b6⟩
      have hf6 := updateDeploymentScriptVersion_world_frame w5 v
      rw [h6] at hf6
      have hl6 : w6.gitLog = w3.gitLog := hf6.1.trans (hf5.1.trans hf4.1)
      have hg6 : w6.gitFail = w3.gitFail := hf6.2.trans (hf5.2.1.trans hf4.2.1)
      cases b6 with
      | false =>
        exact ⟨fun h => absurd h Bool.false_ne_true, Or.inl hl6,
          fun _ => rfl, fun _ => rfl⟩
      | true =>
        simp only [andThen_true]
        unfold execGit
        rw [hg6]
        cases hgc : w3.gitFail (gitCommitCmd v) with
        | true => simp [andThen_false, andThen_true, hl6]
        | false =>
          simp only [Bool.not_true, Bool.not_false, andThen_true]
          cases hgt : w3.gitFail (gitTagCmd v) with
          | true => simp [andThen_false, andThen_true, hl6]
          | false => simp [andThen_false, andThen_true, addLog, hl6]

/-- Claim C5 (amended): steps 1–2 (the manifest updates) are
best-effort, but steps 3 (import maps) and 4 (deployment-test manifest)
are not guarded: in particular, when the deployment-test harness
manifest is missing the release rejects before the commit-and-tag
finalization — no git command is run at all.  The unamended claim (the
release proceeds to commit) is refuted by
`incrementRemixVersion_missing_deployment_counterexample`. -/
theorem incrementRemixVersion_aborts_on_missing_deployment_manifest :
    ∀ (w : World) (v : Str),
      w.files (packageJson "deployment-test" "scripts") = none →
      (incrementRemixVersion w v).2 = false ∧
      (incrementRemixVersion w v).1.gitLog = w.gitLog := by
  intro w v h
  have hu1 := updateRemixVersion_world_frame w "remix" v none
  have hu2 := updateRemixVersion_world_frame (updateRemixVersion w "remix" v none)
    "create-remix" v none
  have hfold := packagesFold_world_frame v remixPackages.all
    (updateRemixVersion (updateRemixVersion w "remix" v none) "create-remix" v none)
  set w3 := remixPackages.all.foldl
    (fun acc name => updateRemixVersion acc ("remix-" ++ name) v none)
    (updateRemixVersion (updateRemixVersion w "remix" v none) "create-remix" v none)
    with hw3
  have h3 : w3.files (packageJson "deployment-test" "scripts") = none := by
    rw [hw3, hfold.2.2 _ (by decide), hu2.2.2 _ (by decide), hu1.2.2 _ (by decide), h]
  have habort := releasePhase2_aborts w3 v h3
  have hlog : w3.gitLog = w.gitLog := by
    rw [hw3, hfold.1, hu2.1, hu1.1]
  exact ⟨habort.1, habort.2.trans hlog⟩

/-- An import-map document holding only an empty `imports` object. -/
def importsOnlyDoc : List (Str × TopVal) := [(str "imports", TopVal.imports [])]

/-- A world with both import maps present and valid but no
deployment-test manifest; everything is writable and git always
succeeds. -/
def worldMissingDeployManifest : World :=
  { files := fun p =>
      if p = pathJoin rootDir importMapPath1 then some (FileData.imap importsOnlyDoc)
      else if p = pathJoin rootDir importMapPath2 then some (FileData.imap importsOnlyDoc)
      else none
    writeOk := fun _ => true
    gitFail := fun _ => false
    log := []
    gitLog := [] }

/-- Claim C5, counterexample to the unamended statement: with only the
deployment-test manifest missing (steps 1–3 all fine, git able to
succeed), the release rejects and never reaches the commit — the list
of executed git commands stays empty. -/
theorem incrementRemixVersion_missing_deployment_counterexample :
    worldMissingDeployManifest.files (packageJson "deployment-test" "scripts") = none ∧
    (incrementRemixVersion worldMissingDeployManifest (str "1.1.0")).2 = false ∧
    (incrementRemixVersion worldMissingDeployManifest (str "1.1.0")).1.gitLog = [] := by
  refine ⟨rfl, rfl, rfl⟩

/-- Concrete instantiation of
`incrementRemixVersion_aborts_on_missing_deployment_manifest`. -/
theorem incrementRemixVersion_aborts_witness :
    (incrementRemixVersion worldMissingDeployManifest (str "1.1.0")).2 = false ∧
    (incrementRemixVersion worldMissingDeployManifest (str "1.1.0")).1.gitLog
      = worldMissingDeployManifest.gitLog :=
  incrementRemixVersion_aborts_on_missing_deployment_manifest
    worldMissingDeployManifest (str "1.1.0") rfl

/-- Claim C8: a successful release runs exactly one commit command whose
message names the version, followed by exactly one annotated-tag command
named `v<version>`; each of the two commands is attempted at most once
(no retry) and in that order, and a non-zero exit of either makes the
release fail. -/
theorem incrementRemixVersion_git :
    ∀ (w : World) (v : Str),
      ((incrementRemixVersion w v).2 = true →
        (incrementRemixVersion w v).1.gitLog
          = w.gitLog ++ [gitCommitCmd v, gitTagCmd v] ∧
        w.gitFail (gitCommitCmd v) = false ∧ w.gitFail (gitTagCmd v) = false) ∧
      ((incrementRemixVersion w v).1.gitLog = w.gitLog ∨
        (incrementRemixVersion w v).1.gitLog = w.gitLog ++ [gitCommitCmd v] ∨
        (incrementRemixVersion w v).1.gitLog
          = w.gitLog ++ [gitCommitCmd v, gitTagCmd v]) ∧
      (w.gitFail (gitCommitCmd v) = true → (incrementRemixVersion w v).2 = false) ∧
      (w.gitFail (gitTagCmd v) = true → (incrementRemixVersion w v).2 = false) := by
  intro w v
  have hu1 := updateRemixVersion_world_frame w "remix" v none
  have hu2 := updateRemixVersion_world_frame (updateRemixVersion w "remix" v none)
    "create-remix" v none
  have hfold := packagesFold_world_frame v remixPackages.all
    (updateRemixVersion (updateRemixVersion w "remix" v none) "create-remix" v none)
  set w3 := remixPackages.all.foldl
    (fun acc name => updateRemixVersion acc ("remix-" ++ name) v none)
    (updateRemixVersion (updateRemixVersion w "remix" v none) "create-remix" v none)
    with hw3
  have hlog : w3.gitLog = w.gitLog := by
    rw [hw3, hfold.1, hu2.1, hu1.1]
  have hfail : w3.gitFail = w.gitFail := by
    rw [hw3, hfold.2.1, hu2.2.1, hu1.2.1]
  have h := releasePhase2_git w3 v
  rw [hlog, hfail] at h
  exact h

/-- The deployment-test harness manifest. -/
def deploymentManifest : Manifest :=
  ⟨some (str "1.0.0"),
    some (fun k => if k = str "@remix-run/dev" then some (str "1.0.0") else none),
    none, none⟩

/-- A world where every file the release needs is present, writable and
git succeeds. -/
def worldAllGood : World :=
  { files := fun p =>
      if p = pathJoin rootDir importMapPath1 then some (FileData.imap importsOnlyDoc)
      else if p = pathJoin rootDir importMapPath2 then some (FileData.imap importsOnlyDoc)
      else if p = packageJson "deployment-test" "scripts" then
        some (FileData.man deploymentManifest)
      else none
    writeOk := fun _ => true
    gitFail := fun _ => false
    log := []
    gitLog := [] }

/-- Concrete instantiation of `incrementRemixVersion_git` on a
successful release. -/
theorem incrementRemixVersion_git_witness :
    (incrementRemixVersion worldAllGood (str "1.1.0")).1.gitLog
      = worldAllGood.gitLog ++ [gitCommitCmd (str "1.1.0"), gitTagCmd (str "1.1.0")] ∧
    worldAllGood.gitFail (gitCommitCmd (str "1.1.0")) = false ∧
    worldAllGood.gitFail (gitTagCmd (str "1.1.0")) = false :=
  (incrementRemixVersion_git worldAllGood (str "1.1.0")).1 rfl
